import Mathlib

/-!
# Verification of the RF-Powermeter control loop

Shallow embedding of `RF-Powermeter_1v0.ino` (Arduino RF power meter for a
Mini-Circuits ZX47-55-S+ frontend).  The embedding covers the measurement
pipeline (rolling-average sample filter, linear calibration, unit
autoranging) and the attenuation state machine (pushbutton handling,
200 ms rate limiting, EEPROM persistence), translated from the source
with machine integers modelled as `Nat`/`Int` with explicit wrap where
overflow matters and floating-point arithmetic modelled exactly over `ℚ`
(and `ℝ` for the transcendental `pow` used by the watt conversion).
-/

set_option autoImplicit false
set_option maxRecDepth 10000

namespace RFPowermeter

/-! ## Calibration (power channel)

Source, `loop()`:
```
fPwrdBm  = (-2750.0/67.0) * (((float)s16Tmp+0.5) * (ADCREF/1024.0)) + (1820.0/67.0);
if ( s16Tmp > 583 ) { "RF low!" } else { if ( s16Tmp < 167 ) { "RF ovl!" }
  else { fPwrdBm += (float)u8Att; ... } }
```
with `#define ADCREF 2.542`. -/

/-- `#define ADCREF 2.542` — ADC reference voltage as an exact rational. -/
def ADCREF : ℚ := 2542 / 1000

/-- The linear calibration model applied to the filtered sample `s16Tmp`,
before the attenuation offset is added:
`(-2750.0/67.0) * ((s + 0.5) * (ADCREF/1024.0)) + (1820.0/67.0)`. -/
def dbmLin (s : ℤ) : ℚ :=
  (-2750 / 67) * (((s : ℚ) + 1/2) * (ADCREF / 1024)) + 1820 / 67

/-- The power reading produced by one loop iteration: either an invalid
marker (`"RF low!"` / `"RF ovl!"` on the display) or a dBm value. -/
inductive PwrReading where
  | low : PwrReading
  | overload : PwrReading
  | valid : ℚ → PwrReading
deriving DecidableEq

/-- The ADC-domain validity check and dBm computation of `loop()`:
`s16Tmp > 583` reports `RF low!`, otherwise `s16Tmp < 167` reports
`RF ovl!`, otherwise the calibrated dBm plus the attenuation `u8Att`
is returned. -/
def rawToDbm (s : ℤ) (att : ℕ) : PwrReading :=
  if 583 < s then .low
  else if s < 167 then .overload
  else .valid (dbmLin s + (att : ℚ))

/-! ## Claims C1 and C2 -/

/-- **C1**: for every filtered power sample `s`, if `s > 583` the reading is
reported as invalid-low, if `s < 167` as invalid-overload, and otherwise the
dBm value is the linear model plus the current attenuation offset; the
validity test is on the filtered integer sample, not the post-calibration
dBm value (the branch conditions of `rawToDbm` mention only `s`). -/
theorem C1_validity_bounds (s : ℤ) (att : ℕ) :
    (583 < s → rawToDbm s att = .low) ∧
    (s < 167 → rawToDbm s att = .overload) ∧
    (167 ≤ s → s ≤ 583 → rawToDbm s att = .valid (dbmLin s + (att : ℚ))) := by
  unfold rawToDbm
  refine ⟨fun h => ?_, fun h => ?_, fun h1 h2 => ?_⟩
  · rw [if_pos h]
  · rw [if_neg (by omega), if_pos h]
  · rw [if_neg (by omega), if_neg (by omega)]

/-- Witness for C1 at concrete samples 600 (low), 100 (overload) and
300 with attenuation 10 (valid). -/
theorem C1_validity_bounds_witness :
    rawToDbm 600 0 = .low ∧ rawToDbm 100 0 = .overload ∧
    rawToDbm 300 10 = .valid (dbmLin 300 + (10 : ℚ)) :=
  ⟨(C1_validity_bounds 600 0).1 (by norm_num),
   (C1_validity_bounds 100 0).2.1 (by norm_num),
   (C1_validity_bounds 300 10).2.2 (by norm_num) (by norm_num)⟩

/-! ## Attenuation state machine

Source, `setup()`:
```
if ( EEPROM[0] > 49 ) { EEPROM[0] = 0; }
else { u8Att = EEPROM[0]; u8AttLast = u8Att; }
...
u32MillisLast = millis();
```
and `loop()` (note the brace placement: the EEPROM write-back check and the
`u32MillisLast = millis()` reset both sit inside `if ( s16pushButtons )`):
```
u32MillisCur = millis();
if ( (u32MillisCur - u32MillisLast) > 200 ) {
  if ( s16pushButtons ) {
    switch(s16pushButtons) {
      case 1: if ( ++u8Att > 49 ) { u8Att = 49; } break;
      case 2: if ( u8Att > 0 ) { u8Att--; } break;
      case 7: softReset(); break;
      default: break; }
  if ( u8Att != u8AttLast ) { EEPROM[0] = u8Att; u8AttLast = u8Att; }
  u32MillisLast = millis();
  } }
```
The `uint32_t` timestamps and `uint8_t` attenuation are modelled as `ℕ`
reduced mod `2^32` / mod `256` where the C arithmetic wraps. -/

/-- State of the attenuation machinery: `u8Att`, `u8AttLast`,
`u32MillisLast` and the persistent byte `EEPROM[0]`. -/
structure AttState where
  att : ℕ
  attLast : ℕ
  millisLast : ℕ
  eeprom : ℕ
deriving DecidableEq, Repr

/-- The `uint32_t` subtraction `u32MillisCur - u32MillisLast`: difference of
the two 32-bit counters mod `2^32`. -/
def elapsedU32 (cur last : ℕ) : ℕ :=
  (cur % 2 ^ 32 + (2 ^ 32 - last % 2 ^ 32)) % 2 ^ 32

/-- The EEPROM handling of `setup()`: a stored byte `b > 49` is reset to 0 in
storage (the globals `u8Att`/`u8AttLast` keep their initial value 0),
otherwise `b` becomes both `u8Att` and `u8AttLast`.  `t` is the value of
the `millis()` call that initializes `u32MillisLast`; the returned flag
records whether EEPROM was written. -/
def setupInit (b : ℕ) (t : ℕ) : AttState × Bool :=
  if 49 < b then (⟨0, 0, t % 2 ^ 32, 0⟩, true)
  else (⟨b, b, t % 2 ^ 32, b⟩, false)

/-- Result of one attenuation evaluation: the successor state, whether
`EEPROM[0]` was written this iteration, and whether the all-three-button
chord triggered `softReset()`. -/
structure AttStepOut where
  st : AttState
  wrote : Bool
  didReset : Bool
deriving DecidableEq, Repr

/-- The `case 1` / `case 2` / `default` arms of the switch: `++u8Att` is a
`uint8_t` increment (wrap at 256) clamped to 49; `u8Att--` only fires above
0; every other mask leaves the value unchanged. -/
def switchAtt (buttons att : ℕ) : ℕ :=
  if buttons = 1 then
    (if 49 < (att + 1) % 256 then 49 else (att + 1) % 256)
  else if buttons = 2 then
    (if 0 < att then att - 1 else att)
  else att

/-- One iteration of the attenuation section of `loop()`.  `buttons` is the
3-bit pushbutton mask `s16pushButtons`, `tCur` the `millis()` value read
into `u32MillisCur`, and `tEval` the value of the second `millis()` call
(the one that resets `u32MillisLast`; after the reset chord it is the
`millis()` call in the restarted `setup()`). -/
def attStep (st : AttState) (buttons tCur tEval : ℕ) : AttStepOut :=
  if 200 < elapsedU32 tCur st.millisLast then
    if buttons ≠ 0 then
      if buttons = 7 then
        -- softReset(): jump to 0, the process reruns setup() on the
        -- persisted EEPROM byte; nothing after the switch executes.
        ⟨(setupInit st.eeprom tEval).1, (setupInit st.eeprom tEval).2, true⟩
      else
        if switchAtt buttons st.att ≠ st.attLast then
          ⟨⟨switchAtt buttons st.att, switchAtt buttons st.att, tEval % 2 ^ 32,
            switchAtt buttons st.att⟩, true, false⟩
        else
          ⟨⟨switchAtt buttons st.att, st.attLast, tEval % 2 ^ 32, st.eeprom⟩,
            false, false⟩
    else ⟨st, false, false⟩
  else ⟨st, false, false⟩

/-- Input of one loop iteration to the attenuation machinery. -/
structure AttInput where
  buttons : ℕ
  tCur : ℕ
  tEval : ℕ
deriving DecidableEq, Repr

/-- Run the attenuation machinery over a list of loop-iteration inputs. -/
def runAtt (st : AttState) : List AttInput → AttState
  | [] => st
  | i :: rest => runAtt (attStep st i.buttons i.tCur i.tEval).st rest

/-- Number of EEPROM writes performed over a list of loop iterations. -/
def countWrites (st : AttState) : List AttInput → ℕ
  | [] => 0
  | i :: rest =>
      (if (attStep st i.buttons i.tCur i.tEval).wrote then 1 else 0) +
        countWrites (attStep st i.buttons i.tCur i.tEval).st rest

/-- The run-time invariant of the attenuation state: the in-memory value,
the last-persisted shadow and the EEPROM byte agree and are at most 49. -/
def AttInv (st : AttState) : Prop :=
  st.att = st.attLast ∧ st.eeprom = st.att ∧ st.att ≤ 49

instance (st : AttState) : Decidable (AttInv st) := by
  unfold AttInv; infer_instance

theorem attInv_setupInit (b t : ℕ) : AttInv (setupInit b t).1 := by
  unfold setupInit AttInv
  split_ifs with h
  · exact ⟨rfl, rfl, by show (0 : ℕ) ≤ 49; omega⟩
  · exact ⟨rfl, rfl, by show b ≤ 49; omega⟩

theorem switchAtt_le (buttons att : ℕ) (h : att ≤ 49) :
    switchAtt buttons att ≤ 49 := by
  unfold switchAtt
  split_ifs <;> omega

theorem attInv_attStep (st : AttState) (buttons tCur tEval : ℕ)
    (h : AttInv st) : AttInv (attStep st buttons tCur tEval).st := by
  obtain ⟨h1, h2, h3⟩ := h
  unfold attStep
  split_ifs with hg hb h7 hw
  · exact attInv_setupInit st.eeprom tEval
  · exact ⟨rfl, rfl, switchAtt_le buttons st.att h3⟩
  · have he : switchAtt buttons st.att = st.attLast := not_ne_iff.mp hw
    refine ⟨he, ?_, switchAtt_le buttons st.att h3⟩
    show st.eeprom = switchAtt buttons st.att
    rw [he]
    omega
  · exact ⟨h1, h2, h3⟩
  · exact ⟨h1, h2, h3⟩

theorem attInv_runAtt (st : AttState) (l : List AttInput) (h : AttInv st) :
    AttInv (runAtt st l) := by
  induction l generalizing st with
  | nil => exact h
  | cons i rest ih =>
      exact ih _ (attInv_attStep st i.buttons i.tCur i.tEval h)

/-- A burst of four upper-button presses, all within a single 200 ms
window: the first at 300 ms after startup, the rest 50 ms apart. -/
def burstUpper : List AttInput :=
  [⟨1, 300, 300⟩, ⟨1, 350, 350⟩, ⟨1, 400, 400⟩, ⟨1, 450, 450⟩]

/-- **C3**: after startup, an EEPROM write happens in an iteration iff the
attenuation value changed in the evaluation of that iteration and at least
200 ms have elapsed since the last accepted evaluation (the guard in the code is
`> 200`, and a change can only happen inside that guard, so the two
conditions coincide); a burst of upper-button presses inside one 200 ms
window yields exactly one stored increment. -/
theorem C3_persistence_gating :
    (∀ (st : AttState) (buttons tCur tEval : ℕ), AttInv st →
      ((attStep st buttons tCur tEval).wrote = true ↔
        ((attStep st buttons tCur tEval).st.att ≠ st.att ∧
          200 ≤ elapsedU32 tCur st.millisLast))) ∧
    countWrites (setupInit 0 0).1 burstUpper = 1 ∧
    (runAtt (setupInit 0 0).1 burstUpper).att = 1 := by
  refine ⟨fun st buttons tCur tEval hInv => ?_, by decide, by decide⟩
  obtain ⟨h1, h2, h3⟩ := hInv
  unfold attStep
  split_ifs with hg hb h7 hw
  · -- reset chord: setup() reruns on the persisted byte, which is ≤ 49
    unfold setupInit
    rw [if_neg (show ¬ 49 < st.eeprom by omega)]
    constructor
    · intro hfalse
      exact Bool.noConfusion hfalse
    · rintro ⟨hne, -⟩
      exact absurd h2 (fun he => hne he)
  · -- a write happened: the value diverged from u8AttLast = u8Att
    constructor
    · intro _
      exact ⟨show switchAtt buttons st.att ≠ st.att by omega, by omega⟩
    · intro _
      rfl
  · -- no write: the switch left the value at u8AttLast = u8Att
    constructor
    · intro hfalse
      exact hfalse.elim
    · rintro ⟨hne, -⟩
      have hne1 : switchAtt buttons st.att ≠ st.att := hne
      exact absurd (show switchAtt buttons st.att = st.att by omega) hne1
  · -- no button pressed: nothing changes, nothing is written
    constructor
    · intro hfalse
      exact hfalse.elim
    · rintro ⟨hne, -⟩
      exact absurd rfl hne
  · -- window check failed: nothing changes, nothing is written
    constructor
    · intro hfalse
      exact hfalse.elim
    · rintro ⟨hne, -⟩
      exact absurd rfl hne

/-- Witness for C3 at a concrete state satisfying the invariant. -/
theorem C3_persistence_gating_witness :
    AttInv ⟨5, 5, 0, 5⟩ ∧
    ((attStep ⟨5, 5, 0, 5⟩ 1 300 300).wrote = true ↔
      ((attStep ⟨5, 5, 0, 5⟩ 1 300 300).st.att ≠ (5 : ℕ) ∧
        200 ≤ elapsedU32 300 0)) :=
  ⟨by decide, C3_persistence_gating.1 ⟨5, 5, 0, 5⟩ 1 300 300 (by decide)⟩

/-- **C4** (counterexample): an iteration where the 200 ms window check
passes but no button is pressed (mask 0) does NOT reset the timer — the
`u32MillisLast = millis()` assignment sits inside `if ( s16pushButtons )`,
so the claim that the timer is reset regardless of the mask, including the
all-buttons-released mask, is false. -/
theorem C4_counterexample :
    200 < elapsedU32 300 (0 : ℕ) ∧
    (attStep ⟨0, 0, 0, 0⟩ 0 300 300).st.millisLast = 0 ∧
    (0 : ℕ) ≠ 300 % 2 ^ 32 := by
  decide

/-- **C4** (amended): the 200 ms timer is reset after the evaluation
exactly in those iterations where the window check passes AND at least one
button is pressed, regardless of whether any transition fired (for the
all-three chord the reset happens through the restarted `setup()`); the
timer keeps its value when the window check fails or when no button is
pressed. -/
theorem C4_timer_reset_amended (st : AttState) (buttons tCur tEval : ℕ) :
    (200 < elapsedU32 tCur st.millisLast → buttons ≠ 0 →
      (attStep st buttons tCur tEval).st.millisLast = tEval % 2 ^ 32) ∧
    (¬ 200 < elapsedU32 tCur st.millisLast →
      (attStep st buttons tCur tEval).st.millisLast = st.millisLast) ∧
    (buttons = 0 →
      (attStep st buttons tCur tEval).st.millisLast = st.millisLast) := by
  unfold attStep setupInit
  refine ⟨fun hg hb => ?_, fun hg => ?_, fun hb => ?_⟩ <;>
    split_ifs <;> simp_all

/-- Witness for C4 (amended) at mask 3 (two buttons, a mask that fires no
transition) with the window check passing. -/
theorem C4_timer_reset_amended_witness :
    (attStep ⟨0, 0, 0, 0⟩ 3 300 321).st.millisLast = 321 % 2 ^ 32 :=
  (C4_timer_reset_amended ⟨0, 0, 0, 0⟩ 3 300 321).1 (by decide) (by decide)

/-- **C5**: for every startup storage content and every input sequence the
attenuation value stays in `[0,49]` (it is a `ℕ` in the model, so only the
upper bound is substantive); incrementing at 49 leaves 49 and decrementing
at 0 leaves 0. -/
theorem C5_att_clamped :
    (∀ (b t0 : ℕ) (inputs : List AttInput),
      (runAtt (setupInit b t0).1 inputs).att ≤ 49) ∧
    (∀ (st : AttState) (tCur tEval : ℕ), st.att = 49 →
      (attStep st 1 tCur tEval).st.att = 49) ∧
    (∀ (st : AttState) (tCur tEval : ℕ), st.att = 0 →
      (attStep st 2 tCur tEval).st.att = 0) := by
  refine ⟨fun b t0 inputs =>
      (attInv_runAtt _ inputs (attInv_setupInit b t0)).2.2,
    fun st tCur tEval h => ?_, fun st tCur tEval h => ?_⟩ <;>
    unfold attStep switchAtt <;> split_ifs <;> simp_all

/-- Witness for C5: startup from a corrupt byte plus one accepted press,
and the two clamping edge cases at 49 and at 0. -/
theorem C5_att_clamped_witness :
    (runAtt (setupInit 200 0).1 [⟨1, 300, 300⟩]).att ≤ 49 ∧
    (attStep ⟨49, 49, 0, 49⟩ 1 300 300).st.att = 49 ∧
    (attStep ⟨0, 0, 0, 0⟩ 2 300 300).st.att = 0 :=
  ⟨C5_att_clamped.1 200 0 [⟨1, 300, 300⟩],
   C5_att_clamped.2.1 ⟨49, 49, 0, 49⟩ 300 300 rfl,
   C5_att_clamped.2.2 ⟨0, 0, 0, 0⟩ 300 300 rfl⟩

/-- **C6**: at startup the EEPROM byte at address 0 is read; a byte
`b > 49` resets storage to 0 and leaves the in-memory attenuation (and its
shadow) at 0, otherwise `b` is adopted as both the initial value and the
last-persisted value; in particular the corrupt byte 200 yields initial
attenuation 0 and a storage write of 0. -/
theorem C6_startup_eeprom (b t : ℕ) :
    (49 < b → setupInit b t = (⟨0, 0, t % 2 ^ 32, 0⟩, true)) ∧
    (b ≤ 49 → setupInit b t = (⟨b, b, t % 2 ^ 32, b⟩, false)) ∧
    (setupInit 200 t).1.att = 0 ∧ (setupInit 200 t).1.eeprom = 0 ∧
    (setupInit 200 t).2 = true := by
  unfold setupInit
  refine ⟨fun h => if_pos h, fun h => if_neg (by omega), ?_, ?_, ?_⟩ <;>
    rw [if_pos (by norm_num)]

/-- Witness for C6 at the corrupt byte 200 and the valid byte 7. -/
theorem C6_startup_eeprom_witness :
    setupInit 200 0 = (⟨0, 0, 0, 0⟩, true) ∧
    setupInit 7 0 = (⟨7, 7, 0, 7⟩, false) :=
  ⟨(C6_startup_eeprom 200 0).1 (by norm_num),
   (C6_startup_eeprom 7 0).2.1 (by norm_num)⟩

/-- **C10**: the elapsed time used by the window check is the difference of the two
`uint32_t` millisecond counters mod `2^32`, so whenever the true elapsed
interval is below `2^32` the comparison with 200 is carried out on the
true elapsed interval, even across a counter wraparound. -/
theorem C10_millis_wraparound (tl tc : ℕ) (hle : tl ≤ tc)
    (hlt : tc - tl < 2 ^ 32) :
    elapsedU32 tc tl = tc - tl ∧
    (200 < elapsedU32 tc tl ↔ 200 < tc - tl) := by
  have h : elapsedU32 tc tl = tc - tl := by
    unfold elapsedU32
    omega
  exact ⟨h, by rw [h]⟩

/-- Witness for C10 across a wraparound: last reading 100 ms before the
`2^32` boundary, current reading 50 ms after it. -/
theorem C10_millis_wraparound_witness :
    elapsedU32 4294967346 4294967196 = 150 ∧
    (200 < elapsedU32 4294967346 4294967196 ↔ 200 < (150 : ℕ)) :=
  C10_millis_wraparound 4294967196 4294967346 (by norm_num) (by norm_num)

/-! ## Sample filter

Source, `loop()` (identical for the temperature channel):
```
as16UPwrRaw[u8IdxUPwrRaw] = analogRead(AI_RFPWR);
if ( ++u8IdxUPwrRaw > ( (sizeof(as16UPwrRaw) / 2) - 1 ) ) { u8IdxUPwrRaw = 0; }
s16Tmp = 0;
for ( u8Count = 0; u8Count < (sizeof(as16UPwrRaw) / 2); u8Count++ )
  { s16Tmp += as16UPwrRaw[u8Count]; }
s16Tmp = s16Tmp / (sizeof(as16UPwrRaw) / 2);
```
with `int16_t as16UPwrRaw[20]`, so `sizeof/2 = 20`. -/

/-- State of one rolling-average filter: the 20-slot circular buffer
(`as16UPwrRaw` / `as16UTempRaw`) and its write index. -/
structure FilterState where
  buf : Fin 20 → ℤ
  idx : Fin 20

/-- `int16_t` wrap of an integer (16-bit two-complement). -/
def wrap16 (x : ℤ) : ℤ := (x + 32768) % 65536 - 32768

/-- The accumulation loop `s16Tmp += as16URaw[u8Count]`: a left fold that
wraps the `int16_t` accumulator `s16Tmp` at every step. -/
def sum16 (l : List ℤ) : ℤ := l.foldl (fun acc x => wrap16 (acc + x)) 0

/-- The filtered value `s16Tmp`: accumulate all 20 slots, then divide by
20 with the truncating division of C. -/
def filterAvg (buf : Fin 20 → ℤ) : ℤ := (sum16 (List.ofFn buf)).tdiv 20

/-- One filter insertion as in `loop()`: store the raw sample at the write
index, advance the index cyclically (`if (++idx > 19) idx = 0`), then
accumulate and average.  Returns the new state and the filtered value. -/
def filterInsert (st : FilterState) (raw : ℤ) : FilterState × ℤ :=
  (⟨Function.update st.buf st.idx raw,
    ⟨(st.idx.val + 1) % 20, Nat.mod_lt _ (by norm_num)⟩⟩,
   filterAvg (Function.update st.buf st.idx raw))

/-- `k` consecutive insertions of the same raw sample. -/
def filterRun (st : FilterState) (raw : ℤ) : ℕ → FilterState
  | 0 => st
  | k + 1 => filterRun (filterInsert st raw).1 raw k

theorem filterRun_succ (st : FilterState) (raw : ℤ) (k : ℕ) :
    filterRun st raw (k + 1) = (filterInsert (filterRun st raw k) raw).1 := by
  induction k generalizing st with
  | zero => rfl
  | succ k ih => exact ih (filterInsert st raw).1

/-- Slots whose forward distance from the write index is at least `k` are
untouched by `k` insertions. -/
theorem filterRun_buf_of_le (raw : ℤ) :
    ∀ (k : ℕ) (st : FilterState) (i : Fin 20), k ≤ 20 →
      k ≤ (i.val + 20 - st.idx.val) % 20 →
      (filterRun st raw k).buf i = st.buf i := by
  intro k
  induction k with
  | zero => intro st i _ _; rfl
  | succ k ih =>
      intro st i hk hd
      have hi : i.val < 20 := i.isLt
      have hidx : st.idx.val < 20 := st.idx.isLt
      have hne : i ≠ st.idx := by
        intro he
        rw [he] at hd
        omega
      calc (filterRun st raw (k + 1)).buf i
          = (filterInsert st raw).1.buf i := by
            refine ih (filterInsert st raw).1 i (by omega) ?_
            show k ≤ (i.val + 20 - (st.idx.val + 1) % 20) % 20
            omega
        _ = st.buf i := by
            show Function.update st.buf st.idx raw i = st.buf i
            exact Function.update_noteq hne raw st.buf

/-- Slots whose forward distance from the write index is under `k` hold
the inserted value after `k` insertions of it. -/
theorem filterRun_buf_of_lt (raw : ℤ) :
    ∀ (k : ℕ) (st : FilterState) (i : Fin 20), k ≤ 20 →
      (i.val + 20 - st.idx.val) % 20 < k →
      (filterRun st raw k).buf i = raw := by
  intro k
  induction k with
  | zero => intro st i _ hd; omega
  | succ k ih =>
      intro st i hk hd
      have hi : i.val < 20 := i.isLt
      have hidx : st.idx.val < 20 := st.idx.isLt
      by_cases h0 : i = st.idx
      · have hv : i.val = st.idx.val := by rw [h0]
        calc (filterRun st raw (k + 1)).buf i
            = (filterInsert st raw).1.buf i := by
              refine filterRun_buf_of_le raw k (filterInsert st raw).1 i
                (by omega) ?_
              show k ≤ (i.val + 20 - (st.idx.val + 1) % 20) % 20
              omega
          _ = raw := by
              show Function.update st.buf st.idx raw i = raw
              rw [h0]
              exact Function.update_same st.idx raw st.buf
      · have hv : i.val ≠ st.idx.val := fun he => h0 (Fin.ext he)
        refine ih (filterInsert st raw).1 i (by omega) ?_
        show (i.val + 20 - (st.idx.val + 1) % 20) % 20 < k
        omega

/-- The value returned by an insertion is the average of the updated
buffer. -/
theorem filterInsert_snd (st : FilterState) (raw : ℤ) :
    (filterInsert st raw).2 = filterAvg ((filterInsert st raw).1.buf) := rfl

/-- After 20 insertions of the same value every slot holds that value. -/
theorem filterRun_20_buf (raw : ℤ) (st : FilterState) (i : Fin 20) :
    (filterRun st raw 20).buf i = raw := by
  refine filterRun_buf_of_lt raw 20 st i le_rfl ?_
  have hi : i.val < 20 := i.isLt
  have hidx : st.idx.val < 20 := st.idx.isLt
  omega

/-- A wrapping `int16_t` fold equals the exact sum while the partial sums
stay in range. -/
theorem foldl_wrap16_eq (l : List ℤ) :
    ∀ acc : ℤ, 0 ≤ acc → (∀ x ∈ l, 0 ≤ x ∧ x ≤ 1023) →
      acc + 1023 * l.length ≤ 32767 →
      l.foldl (fun a x => wrap16 (a + x)) acc = acc + l.sum := by
  induction l with
  | nil => intro acc _ _ _; simp
  | cons y ys ih =>
      intro acc hacc hmem hbound
      have hy := hmem y (by simp)
      have hlen : (0 : ℤ) ≤ 1023 * ys.length := by positivity
      have hlen1 : ((y :: ys).length : ℤ) = (ys.length : ℤ) + 1 := by
        simp
      rw [hlen1] at hbound
      have hw : wrap16 (acc + y) = acc + y := by
        unfold wrap16
        rw [Int.emod_eq_of_lt (by omega) (by omega)]
        ring
      rw [List.foldl_cons, hw,
        ih (acc + y) (by omega) (fun x hx => hmem x (by simp [hx]))
          (by omega)]
      rw [List.sum_cons]
      ring

/-- The accumulation of a 20-element list of in-range ADC samples never
wraps: `sum16` is the exact sum. -/
theorem sum16_eq_sum (l : List ℤ) (hmem : ∀ x ∈ l, 0 ≤ x ∧ x ≤ 1023)
    (hlen : l.length ≤ 20) : sum16 l = l.sum := by
  have h := foldl_wrap16_eq l 0 le_rfl hmem (by
    have : (l.length : ℤ) ≤ 20 := by exact_mod_cast hlen
    nlinarith)
  simpa [sum16] using h

/-- **C7**: for every sample value `v` in `[0,1023]` and every initial
filter state, the value returned by the 20th consecutive insertion of `v`
is exactly `v`: the 20 insertions cover all 20 slots, the wrap-free sum is
`20 * v`, and truncating division by 20 recovers `v`. -/
theorem C7_filter_convergence (v : ℤ) (st : FilterState)
    (h0 : 0 ≤ v) (h1 : v ≤ 1023) :
    (filterInsert (filterRun st v 19) v).2 = v := by
  rw [filterInsert_snd, ← filterRun_succ]
  have hbuf : (filterRun st v 20).buf = fun _ => v :=
    funext fun i => filterRun_20_buf v st i
  rw [hbuf]
  unfold filterAvg
  rw [sum16_eq_sum _ (fun x hx => by
      rcases (List.mem_ofFn _ _).mp hx with ⟨i, rfl⟩
      exact ⟨h0, h1⟩) (by simp), List.sum_ofFn]
  have hsum : (∑ _i : Fin 20, v) = 20 * v := by
    rw [Finset.sum_const, Finset.card_univ, Fintype.card_fin]
    exact nsmul_eq_mul 20 v
  rw [hsum]
  exact Int.mul_tdiv_cancel_left v (by norm_num)

/-- Witness for C7: inserting 7 twenty times into a buffer previously full
of 3 returns exactly 7. -/
theorem C7_filter_convergence_witness :
    (filterInsert (filterRun ⟨fun _ => 3, 0⟩ 7 19) 7).2 = 7 :=
  C7_filter_convergence 7 ⟨fun _ => 3, 0⟩ (by norm_num) (by norm_num)

/-- **C9**: for every 20-slot buffer of samples in `[0,1023]`, the
`int16_t` accumulator never overflows — the sum is at most
`20 * 1023 = 20460 < 32767` — so the wrapped fold equals the exact sum and
the reported average is the exact truncated integer mean of the buffer
contents (this covers both channels, which run the same accumulation). -/
theorem C9_no_overflow (buf : Fin 20 → ℤ)
    (h : ∀ i, 0 ≤ buf i ∧ buf i ≤ 1023) :
    sum16 (List.ofFn buf) = ∑ i, buf i ∧
    (∑ i, buf i) ≤ 20460 ∧
    filterAvg buf = (∑ i, buf i).tdiv 20 ∧
    filterAvg buf = (∑ i, buf i) / 20 := by
  have hmem : ∀ x ∈ List.ofFn buf, 0 ≤ x ∧ x ≤ 1023 := fun x hx => by
    rcases (List.mem_ofFn _ _).mp hx with ⟨i, rfl⟩
    exact h i
  have hs : sum16 (List.ofFn buf) = ∑ i, buf i := by
    rw [sum16_eq_sum _ hmem (by simp), List.sum_ofFn]
  have hb : (∑ i, buf i) ≤ 20460 := by
    calc (∑ i, buf i) ≤ ∑ _i : Fin 20, (1023 : ℤ) :=
          Finset.sum_le_sum fun i _ => (h i).2
      _ = 20460 := by
          rw [Finset.sum_const, Finset.card_univ, Fintype.card_fin]
          norm_num
  have hnn : 0 ≤ ∑ i, buf i := Finset.sum_nonneg fun i _ => (h i).1
  refine ⟨hs, hb, ?_, ?_⟩
  · unfold filterAvg
    rw [hs]
  · unfold filterAvg
    rw [hs, Int.tdiv_eq_ediv hnn (by norm_num)]

/-- Witness for C9 at the all-maximal buffer (the worst case for the
accumulator). -/
theorem C9_no_overflow_witness :
    sum16 (List.ofFn (fun _ : Fin 20 => (1023 : ℤ))) =
      (∑ _i : Fin 20, (1023 : ℤ)) ∧
    (∑ _i : Fin 20, (1023 : ℤ)) ≤ 20460 ∧
    filterAvg (fun _ => 1023) = (∑ _i : Fin 20, (1023 : ℤ)).tdiv 20 ∧
    filterAvg (fun _ => 1023) = (∑ _i : Fin 20, (1023 : ℤ)) / 20 :=
  C9_no_overflow (fun _ => 1023) (fun _ => by norm_num)

/-- **C2** (code bug): at the in-window sample `s = 167` the linear
model yields a dBm value strictly greater than `+5` (it is exactly
`55421700/5488640 ≈ 10.1`), and `rawToDbm` still returns it as a valid
reading, contradicting the documented calibrated range `[-50, +5]`: the
thresholds 583/167 match the commented voltages 1.88 V/0.54 V only under a
3.3 V reference, not under the declared `ADCREF = 2.542`. -/
theorem C2_range_violation :
    rawToDbm 167 0 = .valid (dbmLin 167 + (0 : ℚ)) ∧ 5 < dbmLin 167 := by
  constructor
  · rfl
  · norm_num [dbmLin, ADCREF]

/-! ## Unit autoranging (watt conversion)

Source, `loop()` (valid branch):
```
if ( fPwrdBm < -30.0 )      { dPwrW = pow(10, (fPwrdBm/10.0)) * 1e6;  // nW
} else if ( fPwrdBm < 0.0 ) { dPwrW = pow(10, (fPwrdBm/10.0)) * 1e3;  // uW
} else if ( fPwrdBm < 30.0 ){ dPwrW = pow(10, (fPwrdBm/10.0));        // mW
} else                      { dPwrW = pow(10, (fPwrdBm/10.0)) * 1e-3; // W
}
```
(the nesting flattened here for readability; the source nests the same
three strict comparisons). -/

/-- The display unit chosen by the autoranger. -/
inductive PwrUnit where
  | nanowatt : PwrUnit
  | microwatt : PwrUnit
  | milliwatt : PwrUnit
  | watt : PwrUnit
deriving DecidableEq

/-- The nested strict-`<` comparisons of the source that choose the
display unit from the attenuation-adjusted dBm value. -/
def autorangeBucket (dBm : ℚ) : PwrUnit :=
  if dBm < -30 then .nanowatt
  else if dBm < 0 then .microwatt
  else if dBm < 30 then .milliwatt
  else .watt

/-- The scale factor applied to `pow(10, dBm/10.0)` (milliwatts) in each
branch: `1e6`, `1e3`, `1`, `1e-3`. -/
noncomputable def unitScale : PwrUnit → ℝ
  | .nanowatt => 1000000
  | .microwatt => 1000
  | .milliwatt => 1
  | .watt => 1 / 1000

/-- The displayed magnitude `dPwrW`, branch by branch as in the source,
with the floating `pow` modelled by the exact real power function. -/
noncomputable def dPwrW (dBm : ℚ) : ℝ :=
  if dBm < -30 then (10 : ℝ) ^ ((dBm : ℝ) / 10) * 1000000
  else if dBm < 0 then (10 : ℝ) ^ ((dBm : ℝ) / 10) * 1000
  else if dBm < 30 then (10 : ℝ) ^ ((dBm : ℝ) / 10)
  else (10 : ℝ) ^ ((dBm : ℝ) / 10) * (1 / 1000)

/-- **C8**: the autorange bucket is chosen by strict upper comparisons, so
boundary values fall in the lower-threshold bucket: `dBm < -30` is
nanowatts, `-30 ≤ dBm < 0` microwatts, `0 ≤ dBm < 30` milliwatts,
`dBm ≥ 30` watts — in particular exactly −30.0 dBm is µW, exactly 0.0 dBm
is mW and exactly 30.0 dBm is W — and the magnitude is always
`10^(dBm/10)` (milliwatts) times the scale factor of the chosen unit. -/
theorem C8_autorange_boundaries :
    autorangeBucket (-30) = .microwatt ∧
    autorangeBucket 0 = .milliwatt ∧
    autorangeBucket 30 = .watt ∧
    (∀ d : ℚ, d < -30 → autorangeBucket d = .nanowatt) ∧
    (∀ d : ℚ, -30 ≤ d → d < 0 → autorangeBucket d = .microwatt) ∧
    (∀ d : ℚ, 0 ≤ d → d < 30 → autorangeBucket d = .milliwatt) ∧
    (∀ d : ℚ, 30 ≤ d → autorangeBucket d = .watt) ∧
    (∀ d : ℚ,
      dPwrW d = (10 : ℝ) ^ ((d : ℝ) / 10) * unitScale (autorangeBucket d)) := by
  refine ⟨by norm_num [autorangeBucket], by norm_num [autorangeBucket],
    by norm_num [autorangeBucket], fun d h => ?_, fun d h1 h2 => ?_,
    fun d h1 h2 => ?_, fun d h => ?_, fun d => ?_⟩
  · unfold autorangeBucket
    rw [if_pos h]
  · unfold autorangeBucket
    rw [if_neg (by linarith), if_pos h2]
  · unfold autorangeBucket
    rw [if_neg (by linarith), if_neg (by linarith), if_pos h2]
  · unfold autorangeBucket
    rw [if_neg (by linarith), if_neg (by linarith), if_neg (by linarith)]
  · unfold dPwrW autorangeBucket unitScale
    split_ifs <;> norm_num

/-- Witness for C8 inside the two open-ended buckets. -/
theorem C8_autorange_boundaries_witness :
    autorangeBucket (-40) = .nanowatt ∧ autorangeBucket 40 = .watt :=
  ⟨C8_autorange_boundaries.2.2.2.1 (-40) (by norm_num),
   C8_autorange_boundaries.2.2.2.2.2.2.1 40 (by norm_num)⟩

end RFPowermeter
